import Mathlib

/-!
Shallow embedding of `src/models/mlp.py` (CT-Reconstruction-NeRF).

Tensors are modelled as (nested) lists of real numbers; a batch of
coordinates is a `List (List ℝ)` (rows), a batch of rays is a
`List (List (List ℝ))`.  Fallible operations (shape-checked tensor ops,
Python name lookup, `log_dict` with locals that may be unassigned on a
branch) are modelled with `Except String`.  Randomised initialisation is
modelled by passing the uniform draws explicitly as a function from
entry indices to a value in `[0, 1]`.
-/

namespace CTNerf

/-- Logistic sigmoid, `torch.nn.Sigmoid`: `1 / (1 + exp (-x))`. -/
noncomputable def sigmoid (x : ℝ) : ℝ := 1 / (1 + Real.exp (-x))

/-- The `Sine` module of `mlp.py`: `torch.sin (30 * input)`. -/
noncomputable def sineActivation (x : ℝ) : ℝ := Real.sin (30 * x)

/-- Function `get_activation_function` from `mlp.py` lines 11-27: dispatch on the
activation name, raising `ValueError` with a message naming the unknown
value otherwise.  The kwargs/device plumbing is semantics-free and not
modelled. -/
noncomputable def get_activation_function (activation_function : String) :
    Except String (ℝ → ℝ) :=
  match activation_function with
  | "relu" => Except.ok fun x => max 0 x
  | "leaky_relu" => Except.ok fun x => if 0 ≤ x then x else (1 / 100) * x
  | "sigmoid" => Except.ok sigmoid
  | "tanh" => Except.ok fun x => Real.tanh x
  | "elu" => Except.ok fun x => if 0 ≤ x then x else Real.exp x - 1
  | "none" => Except.ok fun x => x
  | "sine" => Except.ok sineActivation
  | other => Except.error ("Unknown activation function: " ++ other)

/-- Function `compute_projection_values` from `mlp.py` lines 53-65:
`dx = lengths / num_points`, then per ray the sum over the sample
dimension of `attenuation_values * dx`.  (`I0 = 1` in the source is
unused.)  Total on all inputs: like the torch broadcast, it never
compares the row length against `num_points`. -/
noncomputable def compute_projection_values (num_points : ℕ)
    (attenuation_values : List (List ℝ)) (lengths : List ℝ) : List ℝ :=
  List.zipWith
    (fun row len => (row.map fun a => a * (len / (num_points : ℝ))).sum)
    attenuation_values lengths

/-- Helper: multiplying every element by a constant scales the sum. -/
theorem sum_map_mul_const (row : List ℝ) (d : ℝ) :
    (row.map fun a => a * d).sum = row.sum * d := by
  simpa using List.sum_map_mul_right row id d

/-- C4: for every `num_points` N ≥ 1, every ray length L > 0 and a constant
density c at each of the N samples (any batch size B), the quadrature
`compute_projection_values` returns exactly `c * L` per ray, because
`dx = ray_length / num_points` and the per-ray sum is `Σ density * dx`. -/
theorem compute_projection_values_const (B N : ℕ) (c L : ℝ)
    (hN : 1 ≤ N) (hL : 0 < L) :
    compute_projection_values N (List.replicate B (List.replicate N c))
      (List.replicate B L) = List.replicate B (c * L) := by
  have hN0 : (N : ℝ) ≠ 0 := Nat.cast_ne_zero.mpr (by omega)
  have hrow : ((List.replicate N c).map fun a => a * (L / (N : ℝ))).sum = c * L := by
    rw [List.map_replicate, List.sum_replicate, nsmul_eq_mul]
    field_simp
  unfold compute_projection_values
  rw [List.zipWith_replicate, hrow, min_self]

/-- Witness for C4 at B = 2, N = 4, c = 1, L = 4. -/
theorem compute_projection_values_const_witness :
    ((1 ≤ 4) ∧ (0 : ℝ) < 4) ∧
    compute_projection_values 4 (List.replicate 2 (List.replicate 4 (1 : ℝ)))
      (List.replicate 2 (4 : ℝ)) = List.replicate 2 ((1 : ℝ) * 4) :=
  ⟨⟨by norm_num, by norm_num⟩,
    compute_projection_values_const 2 4 1 4 (by norm_num) (by norm_num)⟩

/-- C9: `compute_projection_values` never compares its `num_points` argument
with the actual number M of samples per ray: for every N ≥ 1 and every
density list it returns per ray the plain sum of the row times
`ray_length / N` (first conjunct); hence a row of M copies of c yields
`(M / N) * (c * L)`, silently scaled by `M / N` (second conjunct). -/
theorem compute_projection_values_no_shape_check (N : ℕ)
    (att : List (List ℝ)) (lengths : List ℝ) (M : ℕ) (c L : ℝ)
    (hN : 1 ≤ N) :
    compute_projection_values N att lengths
      = List.zipWith (fun row len => row.sum * (len / (N : ℝ))) att lengths ∧
    compute_projection_values N [List.replicate M c] [L]
      = [((M : ℝ) / (N : ℝ)) * (c * L)] := by
  have hN0 : (N : ℝ) ≠ 0 := Nat.cast_ne_zero.mpr (by omega)
  constructor
  · unfold compute_projection_values
    induction att generalizing lengths with
    | nil => simp
    | cons r t ih =>
      cases lengths with
      | nil => simp
      | cons len ls => simp [ih, sum_map_mul_const]
  · unfold compute_projection_values
    simp only [List.zipWith_cons_cons, List.zipWith_nil_right, List.map_replicate,
      List.sum_replicate, nsmul_eq_mul]
    congr 1
    field_simp

/-- Witness for C9 at N = 2 against a ray holding M = 3 samples. -/
theorem compute_projection_values_no_shape_check_witness :
    (1 ≤ 2) ∧
    compute_projection_values 2 [[(1 : ℝ), 2, 3]] [(2 : ℝ)]
      = List.zipWith (fun row len => row.sum * (len / ((2 : ℕ) : ℝ)))
          [[(1 : ℝ), 2, 3]] [(2 : ℝ)] :=
  ⟨by norm_num,
    (compute_projection_values_no_shape_check 2 [[(1 : ℝ), 2, 3]] [(2 : ℝ)]
      3 0 0 (by norm_num)).1⟩

/-- The activation names accepted by `get_activation_function`. -/
def supportedActivations : List String :=
  ["relu", "leaky_relu", "sigmoid", "tanh", "elu", "none", "sine"]

/-- C6: for every supported activation name `get_activation_function`
returns a unary transform, with sine defined as `sin (30 * x)`; for any
other name it fails with an error whose message names the offending
value. -/
theorem get_activation_function_spec :
    (∀ name ∈ supportedActivations,
      ∃ f, get_activation_function name = Except.ok f) ∧
    get_activation_function "sine" = Except.ok sineActivation ∧
    (∀ name, name ∉ supportedActivations →
      get_activation_function name
        = Except.error ("Unknown activation function: " ++ name)) := by
  refine ⟨?_, rfl, ?_⟩
  · intro name h
    fin_cases h <;> exact ⟨_, rfl⟩
  · intro name h
    simp only [supportedActivations, List.mem_cons, List.not_mem_nil, or_false] at h
    push_neg at h
    unfold get_activation_function
    split <;> simp_all

/-- Witness for C6: "relu" is dispatched to a transform, while the
unsupported name "swish" is rejected with a message naming it. -/
theorem get_activation_function_spec_witness :
    ("relu" ∈ supportedActivations ∧
      ∃ f, get_activation_function "relu" = Except.ok f) ∧
    ("swish" ∉ supportedActivations ∧
      get_activation_function "swish"
        = Except.error ("Unknown activation function: " ++ "swish")) :=
  ⟨⟨by simp [supportedActivations], get_activation_function_spec.1 "relu"
      (by simp [supportedActivations])⟩,
    ⟨by simp [supportedActivations], get_activation_function_spec.2.2 "swish"
      (by simp [supportedActivations])⟩⟩

/-- A `torch.nn.Linear` layer: `weight` is the out-features × in-features
matrix (list of rows), `bias` the out-features vector. -/
structure LinearLayer where
  weight : List (List ℝ)
  bias : List ℝ

/-- Fan-in `m.weight.size(-1)`: the in-features count of a layer (length of a
weight row). -/
def layerFanIn (m : LinearLayer) : ℕ := (m.weight.headD []).length

/-- Application of a linear layer: `out_i = row_i · x + bias_i`. -/
noncomputable def linearApply (m : LinearLayer) (x : List ℝ) : List ℝ :=
  List.zipWith (fun row b => (List.zipWith (fun w v => w * v) row x).sum + b)
    m.weight m.bias

/-- One draw of `tensor.uniform_(lo, hi)`, with the underlying unit-interval
sample `u` made explicit: the drawn value is `lo + u * (hi - lo)`. -/
noncomputable def uniformDraw (lo hi u : ℝ) : ℝ := lo + u * (hi - lo)

/-- Effect of `weight.uniform_(-c, c)` on a whole weight matrix: every entry is
replaced by a fresh draw from `[-c, c]`; `u i j` is the unit-interval
sample used for entry (i, j). -/
noncomputable def applyUniformInit (c : ℝ) (w : List (List ℝ))
    (u : ℕ → ℕ → ℝ) : List (List ℝ) :=
  w.mapIdx fun i row => row.mapIdx fun j _ => uniformDraw (-c) c (u i j)

/-- Function `sine_init` from `mlp.py` lines 39-44: when the module has a weight,
redraw it uniformly from `[-sqrt(6 / num_input) / 30, sqrt(6 / num_input) / 30]`
with `num_input = m.weight.size(-1)`; the bias is untouched. -/
noncomputable def sine_init (m : LinearLayer) (u : ℕ → ℕ → ℝ) : LinearLayer :=
  { weight := applyUniformInit (Real.sqrt (6 / (layerFanIn m : ℝ)) / 30) m.weight u
    bias := m.bias }

/-- Function `first_layer_sine_init` from `mlp.py` lines 47-51: redraw the weight
uniformly from `[-1 / num_input, 1 / num_input]`; the bias is untouched. -/
noncomputable def first_layer_sine_init (m : LinearLayer) (u : ℕ → ℕ → ℝ) :
    LinearLayer :=
  { weight := applyUniformInit (1 / (layerFanIn m : ℝ)) m.weight u
    bias := m.bias }

/-- The `self.mlp` stack built in `MLP.__init__` lines 108-120: first
linear layer, `num_hidden_layers` hidden linear layers (each followed by
the activation), a final linear layer to one output, and a sigmoid. -/
structure MLPNet where
  firstLinear : LinearLayer
  hiddenLinears : List LinearLayer
  finalLinear : LinearLayer

/-- Lines 122-124 of `mlp.py` for `activation_function == 'sine'`:
`self.mlp.apply(sine_init)` re-initialises every submodule carrying a
weight (all three groups of linear layers; the activation and sigmoid
modules carry none), then `self.mlp[0].apply(first_layer_sine_init)`
overwrites the first linear layer.  `uAll k` supplies the unit-interval
samples of the k-th linear layer's `sine_init` draw, `uFirst` those of
the `first_layer_sine_init` draw. -/
noncomputable def sineInitNet (net : MLPNet) (uAll : ℕ → ℕ → ℕ → ℝ)
    (uFirst : ℕ → ℕ → ℝ) : MLPNet :=
  { firstLinear := first_layer_sine_init (sine_init net.firstLinear (uAll 0)) uFirst
    hiddenLinears := net.hiddenLinears.mapIdx fun k m => sine_init m (uAll (k + 1))
    finalLinear := sine_init net.finalLinear (uAll (net.hiddenLinears.length + 1)) }

/-- Helper: a uniform draw from `[-c, c]` with a unit-interval sample
stays in `[-c, c]` when `0 ≤ c`. -/
theorem uniformDraw_mem (c u : ℝ) (hc : 0 ≤ c) (h0 : 0 ≤ u) (h1 : u ≤ 1) :
    -c ≤ uniformDraw (-c) c u ∧ uniformDraw (-c) c u ≤ c := by
  unfold uniformDraw
  constructor
  · nlinarith
  · nlinarith

/-- Helper: every entry of a row rewritten by indexed uniform draws from
`[-c, c]` lies in `[-c, c]`. -/
theorem mem_row_uniform (c : ℝ) (hc : 0 ≤ c) :
    ∀ (row : List ℝ) (g : ℕ → ℝ), (∀ j, 0 ≤ g j ∧ g j ≤ 1) →
      ∀ x ∈ row.mapIdx fun j _ => uniformDraw (-c) c (g j), -c ≤ x ∧ x ≤ c := by
  intro row
  induction row with
  | nil => intro g _ x hx; simp at hx
  | cons a t ih =>
    intro g hg x hx
    rw [List.mapIdx_cons] at hx
    rcases List.mem_cons.mp hx with h | h
    · subst h; exact uniformDraw_mem c (g 0) hc (hg 0).1 (hg 0).2
    · exact ih (fun j => g (j + 1)) (fun j => hg (j + 1)) x h

/-- Helper: every entry of `applyUniformInit c w u` lies in `[-c, c]`. -/
theorem mem_applyUniformInit (c : ℝ) (hc : 0 ≤ c) :
    ∀ (w : List (List ℝ)) (u : ℕ → ℕ → ℝ), (∀ i j, 0 ≤ u i j ∧ u i j ≤ 1) →
      ∀ row ∈ applyUniformInit c w u, ∀ x ∈ row, -c ≤ x ∧ x ≤ c := by
  intro w
  induction w with
  | nil => intro u _ row hrow; simp [applyUniformInit] at hrow
  | cons r t ih =>
    intro u hu row hrow
    rw [applyUniformInit, List.mapIdx_cons] at hrow
    rcases List.mem_cons.mp hrow with h | h
    · subst h; exact mem_row_uniform c hc r (u 0) (fun j => hu 0 j)
    · exact ih (fun i j => u (i + 1) j) (fun i j => hu (i + 1) j) row h

/-- Helper: rewriting the entries preserves the matrix head-row length,
hence the fan-in of the layer. -/
theorem layerFanIn_applyUniformInit (c : ℝ) (w : List (List ℝ))
    (u : ℕ → ℕ → ℝ) :
    ((applyUniformInit c w u).headD []).length = (w.headD []).length := by
  cases w with
  | nil => rfl
  | cons r t => rw [applyUniformInit, List.mapIdx_cons]; simp

/-- Helper: `sine_init` keeps every weight entry within the sine bound of
the layer's own fan-in (which it also preserves). -/
theorem sine_init_entry_bound (m : LinearLayer) (u : ℕ → ℕ → ℝ)
    (hu : ∀ i j, 0 ≤ u i j ∧ u i j ≤ 1) :
    ∀ row ∈ (sine_init m u).weight, ∀ x ∈ row,
      -(Real.sqrt (6 / (layerFanIn (sine_init m u) : ℝ)) / 30) ≤ x ∧
        x ≤ Real.sqrt (6 / (layerFanIn (sine_init m u) : ℝ)) / 30 := by
  have hfan : layerFanIn (sine_init m u) = layerFanIn m :=
    layerFanIn_applyUniformInit _ m.weight u
  rw [hfan]
  exact mem_applyUniformInit _ (by positivity) m.weight u hu

/-- Helper: `first_layer_sine_init` keeps every weight entry within
`[-1 / fan_in, 1 / fan_in]` of the layer's own fan-in. -/
theorem first_layer_sine_init_entry_bound (m : LinearLayer) (u : ℕ → ℕ → ℝ)
    (hu : ∀ i j, 0 ≤ u i j ∧ u i j ≤ 1) :
    ∀ row ∈ (first_layer_sine_init m u).weight, ∀ x ∈ row,
      -(1 / (layerFanIn (first_layer_sine_init m u) : ℝ)) ≤ x ∧
        x ≤ 1 / (layerFanIn (first_layer_sine_init m u) : ℝ) := by
  have hfan : layerFanIn (first_layer_sine_init m u) = layerFanIn m :=
    layerFanIn_applyUniformInit _ m.weight u
  rw [hfan]
  exact mem_applyUniformInit _ (by positivity) m.weight u hu

/-- Helper: the sine bound holds for every layer of an indexed list of
`sine_init` applications. -/
theorem mem_mapIdx_sine_init_bound :
    ∀ (hs : List LinearLayer) (v : ℕ → ℕ → ℕ → ℝ),
      (∀ k i j, 0 ≤ v k i j ∧ v k i j ≤ 1) →
      ∀ m ∈ hs.mapIdx fun k l => sine_init l (v k), ∀ row ∈ m.weight, ∀ x ∈ row,
        -(Real.sqrt (6 / (layerFanIn m : ℝ)) / 30) ≤ x ∧
          x ≤ Real.sqrt (6 / (layerFanIn m : ℝ)) / 30 := by
  intro hs
  induction hs with
  | nil => intro v _ m hm; simp at hm
  | cons a t ih =>
    intro v hv m hm
    rw [List.mapIdx_cons] at hm
    rcases List.mem_cons.mp hm with h | h
    · subst h; exact sine_init_entry_bound a (v 0) (hv 0)
    · exact ih (fun k => v (k + 1)) (fun k => hv (k + 1)) m h

/-- C5: when the activation is sine, after construction every weight entry
of the first linear layer lies within `[-1 / fan_in, 1 / fan_in]`, and
every weight entry of each subsequent layer with learnable weights
(hidden and final linear layers) lies within
`[-sqrt(6 / fan_in) / 30, sqrt(6 / fan_in) / 30]`, with fan_in the
number of inputs to that layer. -/
theorem sine_init_weight_bounds (net : MLPNet) (uAll : ℕ → ℕ → ℕ → ℝ)
    (uFirst : ℕ → ℕ → ℝ)
    (hAll : ∀ k i j, 0 ≤ uAll k i j ∧ uAll k i j ≤ 1)
    (hFirst : ∀ i j, 0 ≤ uFirst i j ∧ uFirst i j ≤ 1) :
    (∀ row ∈ (sineInitNet net uAll uFirst).firstLinear.weight, ∀ x ∈ row,
        -(1 / (layerFanIn (sineInitNet net uAll uFirst).firstLinear : ℝ)) ≤ x ∧
          x ≤ 1 / (layerFanIn (sineInitNet net uAll uFirst).firstLinear : ℝ)) ∧
    (∀ m ∈ (sineInitNet net uAll uFirst).hiddenLinears,
        ∀ row ∈ m.weight, ∀ x ∈ row,
          -(Real.sqrt (6 / (layerFanIn m : ℝ)) / 30) ≤ x ∧
            x ≤ Real.sqrt (6 / (layerFanIn m : ℝ)) / 30) ∧
    (∀ row ∈ (sineInitNet net uAll uFirst).finalLinear.weight, ∀ x ∈ row,
        -(Real.sqrt (6 / (layerFanIn (sineInitNet net uAll uFirst).finalLinear : ℝ)) / 30) ≤ x ∧
          x ≤ Real.sqrt (6 / (layerFanIn (sineInitNet net uAll uFirst).finalLinear : ℝ)) / 30) := by
  refine ⟨?_, ?_, ?_⟩
  · exact first_layer_sine_init_entry_bound _ uFirst hFirst
  · exact mem_mapIdx_sine_init_bound net.hiddenLinears (fun k => uAll (k + 1))
      (fun k => hAll (k + 1))
  · exact sine_init_entry_bound net.finalLinear _ (hAll (net.hiddenLinears.length + 1))

/-- Witness for C5: a concrete 3-input network initialised with all
unit-interval samples equal to 1/2; the first-layer bound of the theorem
holds there. -/
theorem sine_init_weight_bounds_witness :
    ((0 : ℝ) ≤ 1 / 2 ∧ (1 / 2 : ℝ) ≤ 1) ∧
    (∀ row ∈ (sineInitNet
          ⟨⟨[[0, 0, 0]], [0]⟩, [⟨[[0]], [0]⟩], ⟨[[0]], [0]⟩⟩
          (fun _ _ _ => 1 / 2) (fun _ _ => 1 / 2)).firstLinear.weight, ∀ x ∈ row,
        -(1 / (layerFanIn (sineInitNet
            ⟨⟨[[0, 0, 0]], [0]⟩, [⟨[[0]], [0]⟩], ⟨[[0]], [0]⟩⟩
            (fun _ _ _ => 1 / 2) (fun _ _ => 1 / 2)).firstLinear : ℝ)) ≤ x ∧
          x ≤ 1 / (layerFanIn (sineInitNet
            ⟨⟨[[0, 0, 0]], [0]⟩, [⟨[[0]], [0]⟩], ⟨[[0]], [0]⟩⟩
            (fun _ _ _ => 1 / 2) (fun _ _ => 1 / 2)).firstLinear : ℝ)) :=
  ⟨⟨by norm_num, by norm_num⟩,
    (sine_init_weight_bounds
      ⟨⟨[[0, 0, 0]], [0]⟩, [⟨[[0]], [0]⟩], ⟨[[0]], [0]⟩⟩
      (fun _ _ _ => 1 / 2) (fun _ _ => 1 / 2)
      (fun _ _ _ => ⟨by norm_num, by norm_num⟩)
      (fun _ _ => ⟨by norm_num, by norm_num⟩)).1⟩

/-- C10: sine initialisation (both variants, and the whole-network
application performed for the sine activation) rewrites only the weight
tensors; every bias vector is exactly what it was before. -/
theorem sine_init_preserves_bias (net : MLPNet) (uAll : ℕ → ℕ → ℕ → ℝ)
    (uFirst : ℕ → ℕ → ℝ) :
    (∀ (m : LinearLayer) (u : ℕ → ℕ → ℝ), (sine_init m u).bias = m.bias) ∧
    (∀ (m : LinearLayer) (u : ℕ → ℕ → ℝ),
      (first_layer_sine_init m u).bias = m.bias) ∧
    (sineInitNet net uAll uFirst).firstLinear.bias = net.firstLinear.bias ∧
    (sineInitNet net uAll uFirst).hiddenLinears.map LinearLayer.bias
      = net.hiddenLinears.map LinearLayer.bias ∧
    (sineInitNet net uAll uFirst).finalLinear.bias = net.finalLinear.bias := by
  refine ⟨fun m u => rfl, fun m u => rfl, rfl, ?_, rfl⟩
  have key : ∀ (hs : List LinearLayer) (v : ℕ → ℕ → ℕ → ℝ),
      (hs.mapIdx fun k l => sine_init l (v k)).map LinearLayer.bias
        = hs.map LinearLayer.bias := by
    intro hs
    induction hs with
    | nil => intro v; rfl
    | cons a t ih =>
      intro v
      rw [List.mapIdx_cons]
      simp only [List.map_cons]
      rw [ih fun k => v (k + 1)]
      rfl
  exact key net.hiddenLinears fun k => uAll (k + 1)

/-- Application of the `self.mlp` stack of `MLP.__init__` lines 115-120 to
one feature vector: first linear layer and activation, the hidden
(linear, activation) blocks, the final linear layer to one output, then
`torch.nn.Sigmoid`. -/
noncomputable def mlpApply (net : MLPNet) (act : ℝ → ℝ) (x : List ℝ) : List ℝ :=
  let h0 := (linearApply net.firstLinear x).map act
  let h := net.hiddenLinears.foldl (fun v m => (linearApply m v).map act) h0
  (linearApply net.finalLinear h).map sigmoid

/-- Helper: the logistic sigmoid maps every real strictly into (0, 1). -/
theorem sigmoid_mem_unit (x : ℝ) : 0 < sigmoid x ∧ sigmoid x < 1 := by
  unfold sigmoid
  have h : 0 < 1 + Real.exp (-x) := by positivity
  refine ⟨by positivity, ?_⟩
  rw [div_lt_one h]
  linarith [Real.exp_pos (-x)]

/-- C8: for every coordinate input and every configuration of the weight
and bias parameters (and any activation), each scalar produced by the
forward stack lies strictly within (0, 1), because the final linear
layer is followed by a logistic sigmoid. -/
theorem mlp_output_in_unit_interval (net : MLPNet) (act : ℝ → ℝ) (x : List ℝ) :
    List.Forall (fun y => 0 < y ∧ y < 1) (mlpApply net act x) := by
  unfold mlpApply
  rw [List.forall_iff_forall_mem]
  intro y hy
  rcases List.mem_map.mp hy with ⟨z, _, rfl⟩
  exact sigmoid_mem_unit z

/-- The encoder branch of `MLP.forward` lines 139-142: encode the (already
rank-2) coordinates, or pass the raw 3-vectors through when no encoder
is configured. -/
noncomputable def encodePts (encoder : Option (List ℝ → List ℝ))
    (pts : List (List ℝ)) : List (List ℝ) :=
  match encoder with
  | some e => pts.map e
  | none => pts

/-- Line 144 of `MLP.forward`: `torch.cat([vecs, enc], dim=1)`, performed
unconditionally — the rows of the second forward argument are prepended
to every encoded coordinate row. -/
noncomputable def catLatent (vecs enc : List (List ℝ)) : List (List ℝ) :=
  List.zipWith (fun v e => v ++ e) vecs enc

/-- Method `MLP.forward` (lines 133-151) on a rank-2 batch: encode, concatenate
the second argument, and feed each row to the mlp stack.  The first
linear layer raises a shape error when a row's width differs from its
in-features, modelled by the `Except.error` branch.  (A rank-3 input is
first flattened to rank 2 and the result reshaped back; the flattening
does not change the per-row computation modelled here.) -/
noncomputable def forward (net : MLPNet) (act : ℝ → ℝ)
    (encoder : Option (List ℝ → List ℝ)) (pts vecs : List (List ℝ)) :
    Except String (List (List ℝ)) :=
  let enc := encodePts encoder pts
  let enc2 := catLatent vecs enc
  if enc2.all fun r => r.length == layerFanIn net.firstLinear then
    Except.ok (enc2.map fun r => mlpApply net act r)
  else
    Except.error "mat1 and mat2 shapes cannot be multiplied"

/-- C1: contrary to the claim, the raw coordinates are NOT fed directly to
the first linear layer when no latent vector is available: line 144
unconditionally concatenates the second forward argument.  On a
projection-mode call carrying a width-1 index column, the first layer
(in-features 3) receives width-4 rows, and forward fails with a shape
error instead of returning one scalar per coordinate. -/
theorem forward_projection_mode_mismatch :
    catLatent [[5]] (encodePts none [[(1 : ℝ), 2, 3]]) = [[(5 : ℝ), 1, 2, 3]] ∧
    forward ⟨⟨[[0, 0, 0]], [0]⟩, [], ⟨[[0]], [0]⟩⟩ (fun x => x) none
        [[(1 : ℝ), 2, 3]] [[(5 : ℝ)]]
      = Except.error "mat1 and mat2 shapes cannot be multiplied" :=
  ⟨rfl, rfl⟩

/-- Loss `torch.nn.MSELoss()` with default mean reduction on two equal-length
vectors: mean of the squared differences. -/
noncomputable def mseLoss (pred target : List ℝ) : ℝ :=
  (List.zipWith (fun a b => (a - b) ^ 2) pred target).sum / (pred.length : ℝ)

/-- Loss `torch.nn.L1Loss()` with default mean reduction on two equally shaped
matrices: the sum of the entrywise absolute differences divided by the
element count of the first matrix. -/
noncomputable def l1LossMat (a b : List (List ℝ)) : ℝ :=
  (List.zipWith (fun ra rb => (List.zipWith (fun x y => |x - y|) ra rb).sum) a b).sum
    / (((a.map List.length).sum : ℕ) : ℝ)

/-- Line 173 of `mlp.py` per ray:
`torch.linalg.norm(points[:,-1,:] - points[:,0,:], dim=1)` — the
Euclidean distance between the last and first sample of the ray. -/
noncomputable def rayLength (ray : List (List ℝ)) : ℝ :=
  Real.sqrt ((List.zipWith (fun a b => (a - b) ^ 2) (ray.getLastD []) (ray.headD [])).sum)

/-- The batch of per-ray lengths. -/
noncomputable def rayLengths (points : List (List (List ℝ))) : List ℝ :=
  points.map rayLength

/-- Slice `attenuation_values[:, 1:]`. -/
def tailCols (m : List (List ℝ)) : List (List ℝ) := m.map (List.drop 1)

/-- Slice `attenuation_values[:, :-1]`. -/
def initCols (m : List (List ℝ)) : List (List ℝ) := m.map List.dropLast

/-- The projection branch of `MLP.training_step` (lines 172-193),
parameterised by the attenuation matrix produced by the forward pass
(`forward(points, idxs).view(B, R)`): ray lengths from the first and
last samples, the quadrature `compute_projection_values` with
`points.shape[1]` sample count, the L1 smoothness penalty between
`attenuation_values[:,1:]` and `attenuation_values[:,:-1]`, the MSE data
loss, and `total_loss = loss + regularization_weight * smoothness_loss`.
Returns the value handed back for backpropagation together with the
logged scalars. -/
noncomputable def training_step_projection (points : List (List (List ℝ)))
    (attenuation_values : List (List ℝ)) (target : List ℝ)
    (regularization_weight : ℝ) : ℝ × List (String × ℝ) :=
  let lengths := rayLengths points
  let detector_value_hat :=
    compute_projection_values (points.headD []).length attenuation_values lengths
  let smoothness_loss := l1LossMat (tailCols attenuation_values) (initCols attenuation_values)
  let loss := mseLoss detector_value_hat target
  let total_loss := loss + regularization_weight * smoothness_loss
  (total_loss,
    [("train/loss", loss), ("train/loss_total", total_loss),
      ("train/l1_regularization", smoothness_loss)])

/-- Modelled from the spec wording for comparison: the sum of the absolute
differences between each adjacent pair of samples along one ray. -/
noncomputable def adjacentAbsDiffSum (r : List ℝ) : ℝ :=
  (List.zipWith (fun x y => |x - y|) (r.drop 1) r).sum

/-- Helper: a `take` on the right zipWith argument is dropped when the
left argument is at most as long. -/
theorem zipWith_take_of_le (f : ℝ → ℝ → ℝ) :
    ∀ (xs ys : List ℝ) (n : ℕ), xs.length ≤ n →
      List.zipWith f xs (ys.take n) = List.zipWith f xs ys := by
  intro xs
  induction xs with
  | nil => simp
  | cons x xt ih =>
    intro ys n h
    cases ys with
    | nil => simp
    | cons y yt =>
      cases n with
      | zero => exact absurd h (by simp)
      | succ m =>
        rw [List.take_succ_cons, List.zipWith_cons_cons, List.zipWith_cons_cons,
          ih yt m (by simpa using h)]

/-- Helper: per ray, the code's pairing of `r[1:]` against `r[:-1]` sums
exactly the adjacent absolute differences. -/
theorem row_smoothness_eq (r : List ℝ) :
    (List.zipWith (fun x y => |x - y|) (r.drop 1) r.dropLast).sum
      = adjacentAbsDiffSum r := by
  unfold adjacentAbsDiffSum
  rw [List.dropLast_eq_take, zipWith_take_of_le]
  simp

/-- Helper: the numerator of the smoothness L1 loss is the total adjacent
absolute difference. -/
theorem l1_numerator_eq (att : List (List ℝ)) :
    (List.zipWith (fun ra rb => (List.zipWith (fun x y => |x - y|) ra rb).sum)
      (tailCols att) (initCols att)).sum = (att.map adjacentAbsDiffSum).sum := by
  unfold tailCols initCols
  rw [List.zipWith_map_left, List.zipWith_map_right, List.zipWith_same]
  congr 1
  exact List.map_congr_left fun r _ => row_smoothness_eq r

/-- Helper: for a rectangular B × R attenuation matrix the element count of
`attenuation_values[:,1:]` is `B * (R - 1)`. -/
theorem l1_denominator_eq (att : List (List ℝ)) (B R : ℕ)
    (hB : att.length = B) (hR : ∀ r ∈ att, r.length = R) :
    ((tailCols att).map List.length).sum = B * (R - 1) := by
  subst hB
  unfold tailCols
  rw [List.map_map]
  induction att with
  | nil => simp
  | cons r t ih =>
    simp only [List.map_cons, List.sum_cons, List.length_cons, Function.comp]
    have h1 : (List.drop 1 r).length = R - 1 := by
      simp [List.length_drop, hR r (by simp)]
    rw [h1, ih fun x hx => hR x (List.mem_cons_of_mem r hx)]
    ring

/-- C7: in projection mode the training step's total loss equals the MSE
between the integrated detector values and the target plus
`regularization_weight` times the mean absolute difference between each
adjacent pair of density samples along the ray (sum of the adjacent
absolute differences over `B * (R - 1)` pairs), and the step returns
this total loss. -/
theorem training_step_projection_total (points : List (List (List ℝ)))
    (att : List (List ℝ)) (target : List ℝ) (w : ℝ) (B R : ℕ)
    (hB : att.length = B) (hR : ∀ r ∈ att, r.length = R) :
    (training_step_projection points att target w).1
      = mseLoss (compute_projection_values (points.headD []).length att
            (rayLengths points)) target
        + w * ((att.map adjacentAbsDiffSum).sum / ((B * (R - 1) : ℕ) : ℝ)) := by
  unfold training_step_projection
  simp only
  unfold l1LossMat
  rw [l1_numerator_eq, l1_denominator_eq att B R hB hR]

/-- Witness for C7 at one ray of two samples: points from (0,0,0) to
(2,0,0), densities (1, 3), target 4, weight 1/2. -/
theorem training_step_projection_total_witness :
    (([[(1 : ℝ), 3]] : List (List ℝ)).length = 1 ∧
      ∀ r ∈ ([[(1 : ℝ), 3]] : List (List ℝ)), r.length = 2) ∧
    (training_step_projection [[[0, 0, 0], [2, 0, 0]]] [[(1 : ℝ), 3]] [4] (1 / 2)).1
      = mseLoss (compute_projection_values
            (([[[(0 : ℝ), 0, 0], [2, 0, 0]]] : List (List (List ℝ))).headD []).length
            [[(1 : ℝ), 3]] (rayLengths [[[0, 0, 0], [2, 0, 0]]])) [4]
        + (1 / 2) * ((([[(1 : ℝ), 3]] : List (List ℝ)).map adjacentAbsDiffSum).sum
            / ((1 * (2 - 1) : ℕ) : ℝ)) :=
  ⟨⟨rfl, by simp⟩,
    training_step_projection_total [[[0, 0, 0], [2, 0, 0]]] [[(1 : ℝ), 3]] [4]
      (1 / 2) 1 2 rfl (by simp)⟩

/-- The two epoch-scoped accumulation lists `validation_step_outputs` and
`validation_step_gt` of the `MLP` module. -/
structure Buffers where
  outputs : List (List ℝ)
  gt : List (List ℝ)

/-- The `log_dict` call shared by both branches of `MLP.validation_step`
(lines 219-228).  It reads the Python locals `total_loss` and
`smoothness_loss`; a branch that never assigned them leaves them as
`none`, and the lookup then raises `UnboundLocalError`. -/
noncomputable def valLogDict (loss : ℝ) (total_loss smoothness_loss : Option ℝ) :
    Except String (List (String × ℝ)) :=
  match total_loss, smoothness_loss with
  | some t, some s =>
      Except.ok [("val/loss", loss), ("val/loss_total", t),
        ("val/l1_regularization", s)]
  | _, _ =>
      Except.error "UnboundLocalError: total_loss referenced before assignment"

/-- The imagefit branch of `MLP.validation_step` (lines 197-204 followed by
the shared `log_dict`), parameterised by the reshaped forward output:
compute the MSE loss, append predictions and target to the buffers, then
log — with `total_loss` and `smoothness_loss` never assigned on this
branch. -/
noncomputable def validation_step_imagefit (attenuation_values target : List ℝ)
    (st : Buffers) : Buffers × Except String (List (String × ℝ)) :=
  let loss := mseLoss attenuation_values target
  let st' : Buffers := ⟨st.outputs ++ [attenuation_values], st.gt ++ [target]⟩
  (st', valLogDict loss none none)

/-- The projection branch of `MLP.validation_step` (lines 205-228),
parameterised by the attenuation matrix from the forward pass: detector
values by quadrature, smoothness loss, MSE data loss, buffer appends,
and `total_loss` assigned before the shared `log_dict`. -/
noncomputable def validation_step_projection (points : List (List (List ℝ)))
    (attenuation_values : List (List ℝ)) (target : List ℝ)
    (regularization_weight : ℝ) (st : Buffers) :
    Buffers × Except String (List (String × ℝ)) :=
  let lengths := rayLengths points
  let detector_value_hat :=
    compute_projection_values (points.headD []).length attenuation_values lengths
  let smoothness_loss := l1LossMat (tailCols attenuation_values) (initCols attenuation_values)
  let loss := mseLoss detector_value_hat target
  let st' : Buffers := ⟨st.outputs ++ [detector_value_hat], st.gt ++ [target]⟩
  let total_loss := loss + regularization_weight * smoothness_loss
  (st', valLogDict loss (some total_loss) (some smoothness_loss))

/-- C2: the imagefit validation step does append both epoch buffers, but its
`log_dict` also references `total_loss` and `smoothness_loss`, which the
imagefit branch never assigns — so instead of logging only `val/loss`
and completing, the step always raises `UnboundLocalError` at the
logging call. -/
theorem validation_step_imagefit_unbound (att target : List ℝ) (st : Buffers) :
    (validation_step_imagefit att target st).1.outputs = st.outputs ++ [att] ∧
    (validation_step_imagefit att target st).1.gt = st.gt ++ [target] ∧
    (validation_step_imagefit att target st).2
      = Except.error "UnboundLocalError: total_loss referenced before assignment" :=
  ⟨rfl, rfl, rfl⟩

/-- Method `MLP.on_validation_epoch_end` (lines 231-274) at the buffer level.
`vol_numel` is the element count of the ground-truth volume,
`mask_count` the number of valid rays in the projection mask.  Imagefit:
`torch.cat` the buffers, `view` them to the volume shape (a shape error
unless the element counts agree), log, and clear both buffers.
Projection: scatter the buffers into the projection tensor through the
validity mask (a shape error unless the counts agree), then run the
dense reconstruction loop — whose body calls `self.forward(mgrid[:,i,:])`
with a single positional argument although `forward` requires `pts` and
`vecs`, so this branch raises `TypeError` before the clears are
reached. -/
noncomputable def on_validation_epoch_end (imagefit_mode : Bool) (st : Buffers)
    (vol_numel : ℕ) (mask_count : ℕ) : Except String Buffers :=
  let all_preds := st.outputs.flatten
  let all_gt := st.gt.flatten
  if imagefit_mode then
    if all_preds.length = vol_numel ∧ all_gt.length = vol_numel then
      Except.ok ⟨[], []⟩
    else
      Except.error "shape cannot be viewed as the volume shape"
  else
    if all_preds.length = mask_count ∧ all_gt.length = mask_count then
      Except.error "TypeError: forward missing 1 required positional argument: vecs"
    else
      Except.error "masked scatter shape mismatch"

/-- C3: in both modes, whenever the end-of-validation-epoch step returns,
both validation accumulation buffers are empty. -/
theorem on_validation_epoch_end_clears (imagefit_mode : Bool) (st : Buffers)
    (vol_numel mask_count : ℕ) (st' : Buffers)
    (h : on_validation_epoch_end imagefit_mode st vol_numel mask_count
          = Except.ok st') :
    st'.outputs = [] ∧ st'.gt = [] := by
  unfold on_validation_epoch_end at h
  cases imagefit_mode with
  | false =>
    simp only [Bool.false_eq_true, if_false] at h
    split at h <;> exact absurd h (by simp)
  | true =>
    simp only [if_true] at h
    split at h
    · cases h
      exact ⟨rfl, rfl⟩
    · exact absurd h (by simp)

/-- Witness for C3: an imagefit epoch end on one buffered prediction and
ground-truth value with a one-element volume returns, and the returned
buffers are empty. -/
theorem on_validation_epoch_end_clears_witness :
    (on_validation_epoch_end true ⟨[[1]], [[2]]⟩ 1 0
        = Except.ok (⟨[], []⟩ : Buffers)) ∧
    ((⟨[], []⟩ : Buffers).outputs = [] ∧ (⟨[], []⟩ : Buffers).gt = []) :=
  ⟨by simp [on_validation_epoch_end],
    on_validation_epoch_end_clears true ⟨[[1]], [[2]]⟩ 1 0 ⟨[], []⟩
      (by simp [on_validation_epoch_end])⟩

end CTNerf
